import Mathlib

/-!
Verification of the lru-ttl repository (package `lruttl`): an LRU cache with
per-entry TTL (`lru_ttl.go`), a two-tier cache in front of a slow store
(`l2cache.go`), and a sharded ring of caches (`ring.go`).

Shallow embedding conventions:
* Go `time.Duration` / `UnixNano` timestamps are `Int` nanoseconds; the current
  wall clock (`time.Now().UnixNano()`) is passed explicitly as a `now : Int`
  parameter to every operation that reads the clock in Go.  No claim touches
  64-bit overflow, so timestamps are unbounded `Int`.
* Go byte slices (`[]byte`) are `List Nat`; only lengths and contents matter.
* Mutating methods become state-passing functions: they return the new state
  alongside the Go return values.  The `sync.RWMutex` field is immaterial in a
  sequential embedding and is dropped.
* Calls to the user-supplied eviction callback `onEvicted` are materialised as
  the list of `(key, value)` pairs it is invoked with during an operation
  (empty when no callback is installed, mirroring Go's `nil` checks).
* Go `panic` in constructors is modelled by an `Option` result (`none` =
  panic), fallible calls by `Except` / `Option` error values.
-/

deriving instance DecidableEq for Except

namespace LruTtl

variable {K V E W : Type} [DecidableEq K]

/-- Finds the first entry with the given key in an association list (the
model of the LRU store's `map[interface{}]*list.Element` lookup). -/
def lruFind (l : List (K × V)) (k : K) : Option (K × V) :=
  l.find? (fun e => decide (e.1 = k))

/-- The value stored under `k`, if any. -/
def lruLookup (l : List (K × V)) (k : K) : Option V :=
  (lruFind l k).map Prod.snd

/-- Removes the first entry with the given key (the model of unlinking the
key's `list.Element` and deleting it from the map). -/
def eraseKey (l : List (K × V)) (k : K) : List (K × V) :=
  l.eraseP (fun e => decide (e.1 = k))

/-- Modelled from the spec: the repository's internal LRU store (`lru.go`,
the `LRUCache` type with `NewLRU`, `Add`, `Get`, `Peek`, `Remove`, `Len`,
`ForEach` and the `OnEvicted` hook) is not among the provided source files;
only its tests (the `TestGet`/`TestRemove`/`TestEvict` section of
`src/unnamed/part_006`) and its callers (`lru_ttl.go`) are.  It is modelled here as the
groupcache-derived store those tests exercise, per spec §4.1 (BoundedStore):
`entries` is the recency list, most-recently-used first; `maxEntries = 0`
means unbounded (as `NewLRU 0` in `TestGet`); `hasOnEvicted` records whether
an `OnEvicted` callback is installed.  Where the spec's §4.1 sentence on
`Remove` ("no callback invocation") contradicts the repository's own tests
(`TestLRUTTLCacheOnEvicted` asserts the callback fires when an expired entry
is removed by `Get`, which goes through `Remove`), the tests win: `remove`
invokes the callback, exactly as the groupcache `removeElement` they pin
down does. -/
structure LRUCache (K V : Type) where
  maxEntries : Int
  entries : List (K × V)
  hasOnEvicted : Bool
deriving DecidableEq

/-- Embeds `NewLRU(maxEntries)`: fresh store, no callback installed. -/
def NewLRU (maxEntries : Int) : LRUCache K V :=
  { maxEntries := maxEntries, entries := [], hasOnEvicted := false }

/-- Wraps the pairs an operation evicted into the list of callback
invocations: Go only calls `OnEvicted` when it is non-nil. -/
def LRUCache.calls (c : LRUCache K V) (l : List (K × V)) : List (K × V) :=
  if c.hasOnEvicted then l else []

/-- Embeds `LRUCache.Add`: insert or update, promote to most-recently-used; when a
new key pushes the length above `maxEntries` (and `maxEntries ≠ 0`), the
least-recently-used entry is dropped and reported to the callback
(`TestEvict` pins oldest-first eviction). -/
def LRUCache.add (c : LRUCache K V) (k : K) (v : V) :
    LRUCache K V × List (K × V) :=
  if (lruFind c.entries k).isSome then
    ({ c with entries := (k, v) :: eraseKey c.entries k }, [])
  else
    let entries' := (k, v) :: c.entries
    if c.maxEntries ≠ 0 ∧ (entries'.length : Int) > c.maxEntries then
      ({ c with entries := entries'.dropLast },
       c.calls [entries'.getLast (List.cons_ne_nil _ _)])
    else
      ({ c with entries := entries' }, [])

/-- Embeds `LRUCache.Get`: on hit, promote to most-recently-used and return the
value; never invokes the callback. -/
def LRUCache.get (c : LRUCache K V) (k : K) : Option V × LRUCache K V :=
  match lruLookup c.entries k with
  | none => (none, c)
  | some v => (some v, { c with entries := (k, v) :: eraseKey c.entries k })

/-- Embeds `LRUCache.Peek`: read without touching the recency order (spec §4.1). -/
def LRUCache.peek (c : LRUCache K V) (k : K) : Option V × LRUCache K V :=
  (lruLookup c.entries k, c)

/-- Embeds `LRUCache.Remove`: delete the key if present; the removed pair is passed
to the callback (groupcache `removeElement` semantics, pinned by
`TestLRUTTLCacheOnEvicted`). -/
def LRUCache.remove (c : LRUCache K V) (k : K) :
    LRUCache K V × List (K × V) :=
  match lruFind c.entries k with
  | none => (c, [])
  | some e => ({ c with entries := eraseKey c.entries k }, c.calls [e])

/-- Embeds `LRUCache.ForEach` visits every stored entry, most-recently-used first
(spec §4.1); the model exposes the visited list. -/
def LRUCache.forEachList (c : LRUCache K V) : List (K × V) :=
  c.entries

/-- A stored cache entry (`cacheItem` in `lru_ttl.go`): the absolute expiry
instant in nanoseconds and the user value. -/
structure CacheItem (V : Type) where
  expiredAt : Int
  value : V
deriving DecidableEq

/-- Embeds `cacheItem.isExpired`: `item.expiredAt < time.Now().UnixNano()`
(`lru_ttl.go:35-37`); `now` is the sampled clock. -/
def CacheItem.isExpired (item : CacheItem V) (now : Int) : Bool :=
  item.expiredAt < now

/-- The TTL-aware cache (`Cache` in `lru_ttl.go`): a default TTL and the
wrapped LRU store holding `cacheItem`s.  The optional `sync.RWMutex` of
`New` vs `NewWithoutRWMutex` is dropped (sequential embedding); the
`onEvicted` function field is reflected by `lru.hasOnEvicted`. -/
structure Cache (K V : Type) where
  ttl : Int
  lru : LRUCache K (CacheItem V)
deriving DecidableEq

/-- Embeds `NewWithoutRWMutex(maxEntries, defaultTTL)` (`lru_ttl.go:47-55`): panics
(`none`) unless `maxEntries > 0` and `defaultTTL > 0`. -/
def NewWithoutRWMutex (K V : Type) (maxEntries defaultTTL : Int) :
    Option (Cache K V) :=
  if maxEntries ≤ 0 ∨ defaultTTL ≤ 0 then none
  else some { ttl := defaultTTL, lru := NewLRU maxEntries }

/-- Embeds `New(maxEntries, defaultTTL)` (`lru_ttl.go:40-44`): `NewWithoutRWMutex`
plus an `RWMutex`, which the sequential embedding drops. -/
def New (K V : Type) (maxEntries defaultTTL : Int) : Option (Cache K V) :=
  NewWithoutRWMutex K V maxEntries defaultTTL

/-- Embeds `Cache.SetOnEvicted` (`lru_ttl.go:58-61`): installs the callback on the
cache and its LRU store. -/
def Cache.setOnEvicted (c : Cache K V) : Cache K V :=
  { c with lru := { c.lru with hasOnEvicted := true } }

/-- Embeds `Cache.Add(key, value, ttl...)` (`lru_ttl.go:64-79`): the entry expires
at `now` plus the per-call TTL when one is passed (even zero), else the
default TTL.  Returns the new state and the callback invocations from a
possible capacity eviction. -/
def Cache.add (c : Cache K V) (now : Int) (k : K) (v : V)
    (ttlArg : Option Int) : Cache K V × List (K × CacheItem V) :=
  let expiredAt := now + (match ttlArg with | some t => t | none => c.ttl)
  let r := c.lru.add k ⟨expiredAt, v⟩
  ({ c with lru := r.1 }, r.2)

/-- Embeds `Cache.Get(key)` (`lru_ttl.go:82-105`): looks up through the recency
promoting `lru.Get`; a present-but-expired entry is removed from the store
while its stale value is still returned with `ok = false`.  (The
`data.(*cacheItem)` type assertion cannot fail, the store only ever holds
`*cacheItem`.)  Result: the Go `(value, ok)` pair, the new state, and the
callback invocations. -/
def Cache.get (c : Cache K V) (now : Int) (k : K) :
    (Option V × Bool) × Cache K V × List (K × CacheItem V) :=
  match c.lru.get k with
  | (none, lru') => ((none, false), { c with lru := lru' }, [])
  | (some item, lru') =>
    if item.isExpired now then
      let r := lru'.remove k
      ((some item.value, false), { c with lru := r.1 }, r.2)
    else
      ((some item.value, true), { c with lru := lru' }, [])

/-- Embeds `Cache.Peek(key)` (`lru_ttl.go:108-131`): reads through the
non-promoting `lru.Peek`; an expired entry is *not* removed ("过期不清除"),
its stale value is returned with `ok = false`.  The returned state is the
second component. -/
def Cache.peek (c : Cache K V) (now : Int) (k : K) :
    (Option V × Bool) × Cache K V :=
  match lruLookup c.lru.entries k with
  | none => ((none, false), c)
  | some item =>
    if item.isExpired now then ((some item.value, false), c)
    else ((some item.value, true), c)

/-- Embeds `Cache.Remove(key)` (`lru_ttl.go:134-140`): delegates to `lru.Remove`;
returns the new state and the callback invocations. -/
def Cache.remove (c : Cache K V) (k : K) :
    Cache K V × List (K × CacheItem V) :=
  let r := c.lru.remove k
  ({ c with lru := r.1 }, r.2)

/-- The body of `Cache.forEach` (`lru_ttl.go:158-167`) applied to one stored
entry: expired entries are skipped, others yield `(key, item.value)`. -/
def visitEntry (now : Int) (e : K × CacheItem V) : Option (K × V) :=
  if e.2.isExpired now then none else some (e.1, e.2.value)

/-- Embeds `Cache.ForEach(fn)` (`lru_ttl.go:158-176`): the sequence of
`(key, value)` pairs passed to `fn`, in the store's iteration order. -/
def Cache.forEachList (c : Cache K V) (now : Int) : List (K × V) :=
  c.lru.forEachList.filterMap (visitEntry now)

/-- Embeds `Cache.Len()` (`lru_ttl.go:143-153`): counts one per `forEach` visit. -/
def Cache.lenAt (c : Cache K V) (now : Int) : Nat :=
  (c.forEachList now).length

/-- Embeds `Cache.Keys()` (`lru_ttl.go:179-189`): collects the key of each
`forEach` visit. -/
def Cache.keysAt (c : Cache K V) (now : Int) : List K :=
  (c.forEachList now).map Prod.fst

/-- Embeds `Cache.TTL(key)` of the hashicorp-lru-backed cache
(`src/unnamed/part_002:119-137`), whose `Peek` lookup coincides with the
modelled `lruLookup`: `-2` when the key is absent, `-1` when present with
`expiredAt ≤ now`, else the remaining `expiredAt - now` nanoseconds. -/
def Cache.ttlOf (c : Cache K V) (now : Int) (k : K) : Int :=
  match lruLookup c.lru.entries k with
  | none => -2
  | some item =>
    if item.expiredAt ≤ now then -1
    else item.expiredAt - now

/-- Embeds `RingCacheParams` (`ring.go`, `src/unnamed/part_006:25-32`). -/
structure RingCacheParams where
  size : Int
  maxEntries : Int
  defaultTTL : Int
deriving DecidableEq

/-- Embeds `NewRing(params)` (`src/unnamed/part_006:34-48`): panics (`none`) unless
`defaultTTL > 0`, `size > 0` and `maxEntries > size`; otherwise builds
`params.size` caches, each via `New(maxEntries/size + 1, defaultTTL)` (Go
integer division; all operands are positive here, so Lean's `Int` division
agrees).  The caches are built from identical parameters, so the list of
instances is the constructed cache replicated `size` times. -/
def NewRing (K V : Type) (params : RingCacheParams) :
    Option (List (Cache K V)) :=
  if params.defaultTTL ≤ 0 ∨ params.size ≤ 0 ∨
      params.maxEntries ≤ params.size then none
  else
    let lruCacheCount := params.maxEntries / params.size + 1
    match New K V lruCacheCount params.defaultTTL with
    | none => none
    | some c => some (List.replicate params.size.toNat c)

/-- The spec's words for the per-shard capacity of `NewRing`
("each capacity `ceil(maxEntries/shardCount)`"), for comparison with the
source's `maxEntries/size + 1`: the ceiling of the division, which for
positive operands is `(m + s - 1) / s`. -/
def specShardCapacity (maxEntries size : Int) : Int :=
  (maxEntries + size - 1) / size

/-- Byte slices (`[]byte`). -/
abbrev Bytes := List Nat

/-- One nanosecond-denominated second (`time.Second`). -/
def second : Int := 1000000000

/-- The observable actions of an `L2Cache` operation, in order: calls into
the injected slow store, writes into the near (lru ttl) cache, and the
decode (`unmarshal`) of the bytes handed back to the caller. -/
inductive L2Event
  | slowSet (key : String) (value : Bytes) (ttl : Int)
  | slowGet (key : String)
  | slowTTLGet (key : String)
  | nearAdd (key : String) (value : Bytes) (ttl : Int)
  | decode (value : Bytes)
deriving DecidableEq

/-- The injected `SlowCache` collaborator (`l2cache.go:29-34`), modelled as
a deterministic oracle over error type `E`: `get` and `set` may fail;
`ttlOf` returns the Go `(time.Duration, error)` pair — `getBytes` ignores
the error component and only inspects the duration. -/
structure SlowStore (E : Type) where
  get : String → Except E Bytes
  set : String → Bytes → Int → Except E Unit
  ttlOf : String → Int × Option E

/-- Errors surfaced by `L2Cache` operations: the dedicated `ErrKeyIsNil`
for an empty raw key, or an error `e : E` from the slow store / codec. -/
inductive L2Error (E : Type)
  | keyIsNil
  | err (e : E)
deriving DecidableEq

/-- The two-tier cache (`L2Cache`, `l2cache.go:43-60`): key namespace
prefix (field `prefix`, renamed `prefixStr` here), default TTL, and the
near `ttlCache`.  The injected slow store and the codec functions are
passed to each operation rather than stored. -/
structure L2Cache where
  prefixStr : String
  ttl : Int
  ttlCache : Cache String Bytes
deriving DecidableEq

/-- Embeds `NewL2Cache(slowCache, maxEntries, defaultTTL, opts...)`
(`l2cache.go:94-107`): panics (`none`) when `defaultTTL < time.Second`,
then builds the near cache via `New`, which itself panics unless
`maxEntries > 0` (its `defaultTTL > 0` check cannot fire here). -/
def NewL2Cache (maxEntries defaultTTL : Int) (px : String) :
    Option L2Cache :=
  if defaultTTL < second then none
  else
    match New String Bytes maxEntries defaultTTL with
    | none => none
    | some c => some { prefixStr := px, ttl := defaultTTL, ttlCache := c }

/-- Embeds `l2.getKey(key)` (`l2cache.go:137-142`): an empty raw key is rejected
with `ErrKeyIsNil` (`none`), otherwise the prefix is prepended. -/
def L2Cache.getKey (l2 : L2Cache) (key : String) : Option String :=
  if key = "" then none else some (l2.prefixStr ++ key)

/-- The TTL `setBytes` resolves (`l2cache.go:206-209`): a passed, nonzero
per-call TTL wins, else the default. -/
def L2Cache.resolvedTTL (l2 : L2Cache) (ttlArg : Option Int) : Int :=
  match ttlArg with
  | some d => if d ≠ 0 then d else l2.ttl
  | none => l2.ttl

/-- Embeds `l2.setBytes(ctx, key, value, ttl...)` (`l2cache.go:205-217`): writes
the slow store first; on error that error is returned and the near cache is
not touched; on success the bytes are added to the near cache under the
same TTL.  Result: Go's `error` (`none` = nil), the new state, the event
trace. -/
def L2Cache.setBytes (l2 : L2Cache) (slow : SlowStore E) (now : Int)
    (key : String) (value : Bytes) (ttlArg : Option Int) :
    Option E × L2Cache × List L2Event :=
  let t := l2.resolvedTTL ttlArg
  match slow.set key value t with
  | .error e => (some e, l2, [.slowSet key value t])
  | .ok _ =>
    (none,
     { l2 with ttlCache := (l2.ttlCache.add now key value (some t)).1 },
     [.slowSet key value t, .nearAdd key value t])

/-- Embeds `l2.SetBytes(ctx, key, value, ttl...)` (`l2cache.go:220-227`):
`getKey` then `setBytes`. -/
def L2Cache.SetBytes (l2 : L2Cache) (slow : SlowStore E) (now : Int)
    (key : String) (value : Bytes) (ttlArg : Option Int) :
    Option (L2Error E) × L2Cache × List L2Event :=
  match l2.getKey key with
  | none => (some .keyIsNil, l2, [])
  | some k =>
    match l2.setBytes slow now k value ttlArg with
    | (some e, l2', tr) => (some (.err e), l2', tr)
    | (none, l2', tr) => (none, l2', tr)

/-- Embeds `l2.Set(ctx, key, value, ttl...)` (`l2cache.go:271-285`): `getKey`,
marshal, then `setBytes`. -/
def L2Cache.Set (l2 : L2Cache) (slow : SlowStore E)
    (marshal : W → Except E Bytes) (now : Int) (key : String) (v : W)
    (ttlArg : Option Int) : Option (L2Error E) × L2Cache × List L2Event :=
  match l2.getKey key with
  | none => (some .keyIsNil, l2, [])
  | some k =>
    match marshal v with
    | .error e => (some (.err e), l2, [])
    | .ok buf =>
      match l2.setBytes slow now k buf ttlArg with
      | (some e, l2', tr) => (some (.err e), l2', tr)
      | (none, l2', tr) => (none, l2', tr)

/-- The bytes `getBytes` extracts from the near cache's `(v, ok)` answer
(`l2cache.go:163-169`): only a successful (`ok`) hit contributes
(`v != nil` and the `[]byte` assertion cannot fail for values this cache
stores; a `nil` slice is the empty list). -/
def nearBuf (r : Option Bytes × Bool) : Bytes :=
  if r.2 then (match r.1 with | some b => b | none => []) else []

/-- Embeds `l2.getBytes(ctx, key)` (`l2cache.go:162-191`): consult the near cache
via `Get` (which may remove an expired entry); when that yields no usable
(nonempty) bytes, fall through to the slow store; on a successful nonempty
slow read, fetch the slow store's TTL (ignoring its error) and, only when
that TTL is nonzero, repopulate the near cache with the fetched bytes
before returning them. -/
def L2Cache.getBytes (l2 : L2Cache) (slow : SlowStore E) (now : Int)
    (key : String) : Except E Bytes × L2Cache × List L2Event :=
  if (nearBuf (l2.ttlCache.get now key).1).length = 0 then
    match slow.get key with
    | .error e =>
      (.error e, { l2 with ttlCache := (l2.ttlCache.get now key).2.1 },
       [.slowGet key])
    | .ok b =>
      if b.length ≠ 0 then
        let t := (slow.ttlOf key).1
        if t ≠ 0 then
          (.ok b,
           { l2 with ttlCache :=
              (((l2.ttlCache.get now key).2.1).add now key b (some t)).1 },
           [.slowGet key, .slowTTLGet key, .nearAdd key b t])
        else
          (.ok b, { l2 with ttlCache := (l2.ttlCache.get now key).2.1 },
           [.slowGet key, .slowTTLGet key])
      else
        (.ok b, { l2 with ttlCache := (l2.ttlCache.get now key).2.1 },
         [.slowGet key])
  else
    (.ok (nearBuf (l2.ttlCache.get now key).1),
     { l2 with ttlCache := (l2.ttlCache.get now key).2.1 }, [])

/-- Embeds `l2.GetBytes(ctx, key)` (`l2cache.go:195-202`): `getKey` then
`getBytes`. -/
def L2Cache.GetBytes (l2 : L2Cache) (slow : SlowStore E) (now : Int)
    (key : String) : Except (L2Error E) Bytes × L2Cache × List L2Event :=
  match l2.getKey key with
  | none => (.error .keyIsNil, l2, [])
  | some k =>
    match l2.getBytes slow now k with
    | (.error e, l2', tr) => (.error (.err e), l2', tr)
    | (.ok buf, l2', tr) => (.ok buf, l2', tr)

/-- Embeds `l2.Get(ctx, key, result)` (`l2cache.go:232-234`, `248-268`): `getKey`,
`getBytes`, then `unmarshal` into the caller's result.  Only the Go `error`
is observable (`none` = nil); the decode of the returned bytes is recorded
as a trace event. -/
def L2Cache.Get (l2 : L2Cache) (slow : SlowStore E)
    (unmarshal : Bytes → Except E Unit) (now : Int) (key : String) :
    Option (L2Error E) × L2Cache × List L2Event :=
  match l2.getKey key with
  | none => (some .keyIsNil, l2, [])
  | some k =>
    match l2.getBytes slow now k with
    | (.error e, l2', tr) => (some (.err e), l2', tr)
    | (.ok buf, l2', tr) =>
      match unmarshal buf with
      | .error e => (some (.err e), l2', tr ++ [.decode buf])
      | .ok _ => (none, l2', tr ++ [.decode buf])

/-- A concrete capacity-1 cache with the eviction callback installed and one
entry added at time 0 with the default TTL of 100ns (so it expires past
instant 100). -/
def sampleEvictCache : Cache Nat Nat :=
  ((Cache.setOnEvicted { ttl := 100, lru := NewLRU 1 }).add 0 1 7 none).1

/-- A concrete cache holding key 1 (expires past instant 100) and key 2
(expires past instant 300); at `now = 200` key 1 is expired, key 2 live. -/
def sampleCache : Cache Nat Nat :=
  { ttl := 100,
    lru := { maxEntries := 10,
             entries := [(1, ⟨100, 7⟩), (2, ⟨300, 9⟩)],
             hasOnEvicted := false } }

/-- A concrete empty near cache for the two-tier samples. -/
def sampleNear : Cache String Bytes :=
  { ttl := second * 10, lru := NewLRU 10 }

/-- A concrete two-tier cache state over `sampleNear`. -/
def sampleL2 : L2Cache :=
  { prefixStr := "p:", ttl := second * 10, ttlCache := sampleNear }

/-- A concrete two-tier cache whose near cache holds an unexpired entry with
zero-length bytes under key `"k"`. -/
def sampleL2Empty : L2Cache :=
  { prefixStr := "", ttl := second * 10,
    ttlCache := { ttl := second * 10,
                  lru := { maxEntries := 10, entries := [("k", ⟨100, []⟩)],
                           hasOnEvicted := false } } }

/-- A concrete slow store whose `Set` always fails. -/
def sampleSlowFail : SlowStore String :=
  { get := fun _ => .error "not found",
    set := fun _ _ _ => .error "boom",
    ttlOf := fun _ => (0, some "not found") }

/-- A concrete slow store that succeeds: every key holds bytes `[1, 2]`
with a reported TTL of 7ns. -/
def sampleSlowOK : SlowStore String :=
  { get := fun _ => .ok [1, 2],
    set := fun _ _ _ => .ok (),
    ttlOf := fun _ => (7, none) }

/-- A concrete slow store that succeeds but reports a zero TTL. -/
def sampleSlowZero : SlowStore String :=
  { get := fun _ => .ok [1, 2],
    set := fun _ _ _ => .ok (),
    ttlOf := fun _ => (0, none) }

/-- Looking up a key that is not among the stored keys finds nothing. -/
theorem lruFind_eq_none_of_not_mem {l : List (K × V)} {k : K}
    (h : k ∉ l.map Prod.fst) : lruFind l k = none := by
  induction l with
  | nil => rfl
  | cons a t ih =>
    simp only [List.map_cons, List.mem_cons, not_or] at h
    have hne : decide (a.1 = k) = false :=
      decide_eq_false fun hh => h.1 hh.symm
    show List.find? _ (a :: t) = none
    rw [List.find?_cons_of_neg _ (by simp [hne])]
    exact ih h.2

/-- Finding the key at the head of the list. -/
theorem lruFind_cons_self (l : List (K × V)) (k : K) (v : V) :
    lruFind ((k, v) :: l) k = some (k, v) := by
  simp [lruFind, List.find?_cons_of_pos]

/-- Erasing the key at the head of the list. -/
theorem eraseKey_cons_self (l : List (K × V)) (k : K) (v : V) :
    eraseKey ((k, v) :: l) k = l := by
  simp [eraseKey, List.eraseP_cons_of_pos]

/-- With no duplicate keys, erasing a key makes it unfindable. -/
theorem lruFind_eraseKey_self {l : List (K × V)} {k : K}
    (h : (l.map Prod.fst).Nodup) : lruFind (eraseKey l k) k = none := by
  induction l with
  | nil => rfl
  | cons a t ih =>
    simp only [List.map_cons, List.nodup_cons] at h
    by_cases hk : a.1 = k
    · rw [show eraseKey (a :: t) k = t by
        simp [eraseKey, List.eraseP_cons_of_pos, hk]]
      exact lruFind_eq_none_of_not_mem (hk ▸ h.1)
    · rw [show eraseKey (a :: t) k = a :: eraseKey t k by
        simp [eraseKey, List.eraseP_cons_of_neg, hk]]
      show List.find? _ (a :: _) = none
      rw [List.find?_cons_of_neg _ (by simp [hk])]
      exact ih h.2

/-- Characterization of `Cache.get` on an absent key: miss, state kept. -/
theorem cache_get_none_eq {c : Cache K V} {now : Int} {k : K}
    (h : lruLookup c.lru.entries k = none) :
    c.get now k = ((none, false), c, []) := by
  simp [Cache.get, LRUCache.get, h]

/-- Characterization of `Cache.get` on a present, unexpired key: hit with
recency promotion, no callback. -/
theorem cache_get_live_eq {c : Cache K V} {now : Int} {k : K}
    {item : CacheItem V} (h : lruLookup c.lru.entries k = some item)
    (hexp : item.isExpired now = false) :
    c.get now k = ((some item.value, true),
      { c with lru :=
        { c.lru with entries := (k, item) :: eraseKey c.lru.entries k } },
      []) := by
  simp [Cache.get, LRUCache.get, h, hexp]

/-- Characterization of `Cache.get` on a present, expired key: stale value
with `ok = false`, entry removed, callback notified when installed. -/
theorem cache_get_expired_eq {c : Cache K V} {now : Int} {k : K}
    {item : CacheItem V} (h : lruLookup c.lru.entries k = some item)
    (hexp : item.isExpired now = true) :
    c.get now k = ((some item.value, false),
      { c with lru := { c.lru with entries := eraseKey c.lru.entries k } },
      if c.lru.hasOnEvicted then [(k, item)] else []) := by
  simp [Cache.get, LRUCache.get, h, hexp, LRUCache.remove,
        lruFind_cons_self, eraseKey_cons_self, LRUCache.calls]

/-- Claim C4: for a key present but expired at call time, `Cache.Get`
removes the entry from the underlying store and returns the stale value
with `found = false`; for an absent key it returns `(nil, false)`; for a
present unexpired key it returns `(value, true)`. -/
theorem cache_get_expiry_semantics (c : Cache K V) (now : Int) (k : K)
    (hnodup : (c.lru.entries.map Prod.fst).Nodup) :
    (lruLookup c.lru.entries k = none →
       c.get now k = ((none, false), c, [])) ∧
    (∀ item, lruLookup c.lru.entries k = some item →
       item.isExpired now = true →
       (c.get now k).1 = (some item.value, false) ∧
       ((c.get now k).2.1).lru.entries = eraseKey c.lru.entries k ∧
       lruLookup (((c.get now k).2.1).lru.entries) k = none) ∧
    (∀ item, lruLookup c.lru.entries k = some item →
       item.isExpired now = false →
       (c.get now k).1 = (some item.value, true)) := by
  refine ⟨fun h => cache_get_none_eq h, fun item h hexp => ?_,
    fun item h hexp => ?_⟩
  · rw [cache_get_expired_eq h hexp]
    exact ⟨rfl, rfl, by simp [lruLookup, lruFind_eraseKey_self hnodup]⟩
  · rw [cache_get_live_eq h hexp]

/-- Claim C4 witness: on `sampleCache` at `now = 200`, key 1 is present but
expired; `Get` returns the stale value 7 with `found = false` and the entry
is gone from the store afterwards. -/
theorem cache_get_expiry_semantics_witness :
    (sampleCache.get 200 1).1 = (some 7, false) ∧
    ((sampleCache.get 200 1).2.1).lru.entries = [(2, ⟨300, 9⟩)] ∧
    lruLookup (((sampleCache.get 200 1).2.1).lru.entries) 1 = none :=
  (cache_get_expiry_semantics sampleCache 200 1 (by decide)).2.1
    ⟨100, 7⟩ (by decide) (by decide)

/-- Claim C5: `Cache.Peek` never mutates the cache state: on a present but
expired entry it returns the stale value with `found = false` without
removing it (so repeated Peeks keep answering the same pair), on a present
unexpired entry it returns the value with `found = true` without altering
the recency order, and a subsequent `Get` on the expired key does clear
it. -/
theorem cache_peek_is_pure (c : Cache K V) (now : Int) (k : K)
    (hnodup : (c.lru.entries.map Prod.fst).Nodup) :
    (c.peek now k).2 = c ∧
    (∀ item, lruLookup c.lru.entries k = some item →
       item.isExpired now = true →
       c.peek now k = ((some item.value, false), c) ∧
       ((c.get now k).2.1).peek now k = ((none, false), (c.get now k).2.1)) ∧
    (∀ item, lruLookup c.lru.entries k = some item →
       item.isExpired now = false →
       c.peek now k = ((some item.value, true), c)) := by
  refine ⟨?_, fun item h hexp => ⟨by simp [Cache.peek, h, hexp], ?_⟩,
    fun item h hexp => by simp [Cache.peek, h, hexp]⟩
  · unfold Cache.peek
    rcases hl : lruLookup c.lru.entries k with _ | item
    · rfl
    · by_cases hexp : item.isExpired now <;> simp [hexp]
  · rw [cache_get_expired_eq h hexp]
    simp [Cache.peek, lruLookup, lruFind_eraseKey_self hnodup]

/-- Claim C5 witness: on `sampleCache` at `now = 200`, peeking expired key 1
returns `(7, false)` and leaves the state untouched; peeking live key 2
returns `(9, true)`; after a `Get` of key 1 the peek answers
`(none, false)`. -/
theorem cache_peek_is_pure_witness :
    (sampleCache.peek 200 1).2 = sampleCache ∧
    sampleCache.peek 200 1 = ((some 7, false), sampleCache) ∧
    ((sampleCache.get 200 1).2.1).peek 200 1 =
      ((none, false), (sampleCache.get 200 1).2.1) ∧
    sampleCache.peek 200 2 = ((some 9, true), sampleCache) :=
  ⟨(cache_peek_is_pure sampleCache 200 1 (by decide)).1,
   ((cache_peek_is_pure sampleCache 200 1 (by decide)).2.1
      ⟨100, 7⟩ (by decide) (by decide)).1,
   ((cache_peek_is_pure sampleCache 200 1 (by decide)).2.1
      ⟨100, 7⟩ (by decide) (by decide)).2,
   (cache_peek_is_pure sampleCache 200 2 (by decide)).2.2
      ⟨300, 9⟩ (by decide) (by decide)⟩

/-- Claim C9: `Cache.TTL` answers `-2` (one negative sentinel) when the key
is absent, `-1` (a distinct negative sentinel) when the key is present but
its expiry instant has passed, and the exact positive remaining duration
`expiredAt - now` when the key is present and unexpired. -/
theorem cache_ttl_sentinels (c : Cache K V) (now : Int) (k : K) :
    (lruLookup c.lru.entries k = none → c.ttlOf now k = -2) ∧
    (∀ item, lruLookup c.lru.entries k = some item →
       item.expiredAt ≤ now → c.ttlOf now k = -1) ∧
    (∀ item, lruLookup c.lru.entries k = some item →
       now < item.expiredAt →
       c.ttlOf now k = item.expiredAt - now ∧ 0 < c.ttlOf now k) ∧
    (-2 : Int) ≠ -1 := by
  refine ⟨fun h => by simp [Cache.ttlOf, h],
    fun item h hle => by simp [Cache.ttlOf, h, hle],
    fun item h hlt => ?_, by decide⟩
  have : c.ttlOf now k = item.expiredAt - now := by
    simp [Cache.ttlOf, h, not_le.mpr hlt]
  exact ⟨this, by rw [this]; omega⟩

/-- Claim C9 witness: on `sampleCache`, key 3 is absent (`-2`), key 1 at
`now = 200` is expired (`-1`), and key 2 at `now = 200` has 100ns left. -/
theorem cache_ttl_sentinels_witness :
    sampleCache.ttlOf 200 3 = -2 ∧
    sampleCache.ttlOf 200 1 = -1 ∧
    (sampleCache.ttlOf 200 2 = 100 ∧ 0 < sampleCache.ttlOf 200 2) ∧
    (-2 : Int) ≠ -1 :=
  ⟨(cache_ttl_sentinels sampleCache 200 3).1 (by decide),
   (cache_ttl_sentinels sampleCache 200 1).2.1 ⟨100, 7⟩ (by decide)
     (by decide),
   (cache_ttl_sentinels sampleCache 200 2).2.2.1 ⟨300, 9⟩ (by decide)
     (by decide),
   (cache_ttl_sentinels sampleCache 200 2).2.2.2⟩

/-- Claim C1 counterexample: with the eviction callback installed, a `Get`
that discovers the expired entry 1 invokes the callback with it, and so
does an explicit `Remove` — refuting that the callback is invoked only for
capacity-driven evictions (the repository's own
`TestLRUTTLCacheOnEvicted` asserts this firing). -/
theorem cache_callback_counterexample :
    (sampleEvictCache.get 200 1).2.2 = [(1, ⟨100, 7⟩)] ∧
    (sampleEvictCache.remove 1).2 = [(1, ⟨100, 7⟩)] := by decide

/-- Claim C1 (amended): with the eviction callback installed, `Get` invokes
it exactly when the looked-up entry is present and expired (passing the
removed key and stored item), and `Remove` invokes it exactly when the key
is present — in addition to the capacity-driven eviction firing of `Add`. -/
theorem cache_callback_on_remove_and_expired_get (c : Cache K V)
    (now : Int) (k : K) (hfn : c.lru.hasOnEvicted = true) :
    ((c.get now k).2.2 = (match lruLookup c.lru.entries k with
       | some item => if item.isExpired now then [(k, item)] else []
       | none => [])) ∧
    ((c.remove k).2 = (match lruFind c.lru.entries k with
       | some e => [e]
       | none => [])) := by
  constructor
  · rcases h : lruLookup c.lru.entries k with _ | item
    · rw [cache_get_none_eq h]
    · by_cases hexp : item.isExpired now
      · rw [cache_get_expired_eq h hexp]
        simp [hfn, hexp]
      · rw [cache_get_live_eq h (by simpa using hexp)]
        simp [hexp]
  · unfold Cache.remove LRUCache.remove
    rcases h : lruFind c.lru.entries k with _ | e <;>
      simp [LRUCache.calls, hfn]

/-- Claim C1 (amended) witness: on the concrete `sampleEvictCache`, the
expired `Get` at `now = 200` reports the callback invocation on entry 1,
and so does the explicit `Remove`. -/
theorem cache_callback_on_remove_and_expired_get_witness :
    (sampleEvictCache.get 200 1).2.2 = [(1, (⟨100, 7⟩ : CacheItem Nat))] ∧
    (sampleEvictCache.remove 1).2 = [(1, (⟨100, 7⟩ : CacheItem Nat))] :=
  cache_callback_on_remove_and_expired_get sampleEvictCache 200 1
    (by decide)

omit [DecidableEq K] in
/-- The `forEach` visit list is as long as the unexpired-entry sublist. -/
theorem visits_length_eq_filter (l : List (K × CacheItem V)) (now : Int) :
    (l.filterMap (visitEntry now)).length
      = (l.filter (fun e => !(e.2.isExpired now))).length := by
  induction l with
  | nil => rfl
  | cons a t ih =>
    by_cases hx : a.2.isExpired now <;>
      simp [List.filterMap_cons, List.filter_cons, visitEntry, hx, ih]

omit [DecidableEq K] in
/-- Every key visited by `forEach` is a stored key. -/
theorem mem_keys_of_mem_visits {l : List (K × CacheItem V)} {now : Int}
    {k : K} (h : k ∈ (l.filterMap (visitEntry now)).map Prod.fst) :
    k ∈ l.map Prod.fst := by
  induction l with
  | nil => simp at h
  | cons a t ih =>
    by_cases hx : a.2.isExpired now
    · rw [show (a :: t).filterMap (visitEntry now)
          = t.filterMap (visitEntry now) by
        simp [List.filterMap_cons, visitEntry, hx]] at h
      simp [ih h]
    · rw [show (a :: t).filterMap (visitEntry now)
          = (a.1, a.2.value) :: t.filterMap (visitEntry now) by
        simp [List.filterMap_cons, visitEntry, hx]] at h
      rcases List.mem_cons.mp h with h | h
      · simp [h]
      · simp [ih h]

omit [DecidableEq K] in
/-- With no duplicate keys, an expired entry's key never appears among the
`forEach` visits. -/
theorem keys_exclude_expired {l : List (K × CacheItem V)} {now : Int}
    {k : K} {item : CacheItem V} (hnodup : (l.map Prod.fst).Nodup)
    (hmem : (k, item) ∈ l) (hexp : item.isExpired now = true) :
    k ∉ (l.filterMap (visitEntry now)).map Prod.fst := by
  induction l with
  | nil => simp at hmem
  | cons a t ih =>
    simp only [List.map_cons, List.nodup_cons] at hnodup
    rcases List.mem_cons.mp hmem with hcase | hcase
    · rw [show (a :: t).filterMap (visitEntry now)
          = t.filterMap (visitEntry now) by
        simp [List.filterMap_cons, visitEntry, ← hcase, hexp]]
      intro hin
      exact hnodup.1 (by simpa [← hcase] using mem_keys_of_mem_visits hin)
    · by_cases hx : a.2.isExpired now
      · rw [show (a :: t).filterMap (visitEntry now)
            = t.filterMap (visitEntry now) by
          simp [List.filterMap_cons, visitEntry, hx]]
        exact ih hnodup.2 hcase
      · rw [show (a :: t).filterMap (visitEntry now)
            = (a.1, a.2.value) :: t.filterMap (visitEntry now) by
          simp [List.filterMap_cons, visitEntry, hx]]
        intro hin
        rw [List.map_cons] at hin
        rcases List.mem_cons.mp hin with h | h
        · exact hnodup.1
            (h ▸ List.mem_map_of_mem Prod.fst hcase)
        · exact ih hnodup.2 hcase h

omit [DecidableEq K] in
/-- Claim C6: `Len`, `Keys` and `ForEach` exclude expired entries: `Len`
counts exactly the unexpired entries, and an entry that still occupies a
store slot but whose expiry has passed is never in `Keys` and never visited
by `ForEach`. -/
theorem cache_enumeration_excludes_expired (c : Cache K V) (now : Int)
    (hnodup : (c.lru.entries.map Prod.fst).Nodup) :
    c.lenAt now
      = (c.lru.entries.filter (fun e => !(e.2.isExpired now))).length ∧
    (∀ k item, (k, item) ∈ c.lru.entries → item.isExpired now = true →
       k ∉ c.keysAt now ∧ ∀ v, (k, v) ∉ c.forEachList now) := by
  refine ⟨visits_length_eq_filter _ _, fun k item hmem hexp => ?_⟩
  have hkeys : k ∉ (c.lru.entries.filterMap (visitEntry now)).map Prod.fst :=
    keys_exclude_expired hnodup hmem hexp
  exact ⟨hkeys, fun v hv =>
    hkeys (List.mem_map_of_mem Prod.fst hv)⟩

/-- Claim C6 witness: on `sampleCache` at `now = 200` (key 1 expired, key 2
live), `Len` counts 1, key 1 is not among the keys, and `(1, 7)` is not
visited. -/
theorem cache_enumeration_excludes_expired_witness :
    sampleCache.lenAt 200 = 1 ∧
    1 ∉ sampleCache.keysAt 200 ∧
    (1, 7) ∉ sampleCache.forEachList 200 :=
  ⟨(cache_enumeration_excludes_expired sampleCache 200 (by decide)).1,
   ((cache_enumeration_excludes_expired sampleCache 200 (by decide)).2
      1 ⟨100, 7⟩ (by decide) (by decide)).1,
   ((cache_enumeration_excludes_expired sampleCache 200 (by decide)).2
      1 ⟨100, 7⟩ (by decide) (by decide)).2 7⟩

/-- Construction succeeds for `NewWithoutRWMutex` exactly when both the
capacity and the default TTL are positive. -/
theorem newWithoutRWMutex_isSome (K V : Type) (m t : Int) :
    (NewWithoutRWMutex K V m t).isSome ↔ 0 < m ∧ 0 < t := by
  unfold NewWithoutRWMutex
  by_cases h : m ≤ 0 ∨ t ≤ 0
  · rw [if_pos h]
    simp only [Option.isSome_none, Bool.false_eq_true, false_iff]
    omega
  · rw [if_neg h]
    simp only [Option.isSome_some, true_iff]
    omega

/-- Claim C7 counterexample: both parameters of `NewL2Cache 1 1` are
positive (capacity 1 > 0, default TTL 1ns > 0), yet construction panics —
refuting that construction succeeds for every pair with capacity > 0 and
TTL > 0. -/
theorem l2_constructor_counterexample :
    (0 : Int) < 1 ∧ (0 : Int) < 1 ∧ NewL2Cache 1 1 "" = none := by decide

/-- Claim C7 (amended): `New` and `NewWithoutRWMutex` panic unless capacity
and default TTL are both positive and succeed on exactly that range;
`NewL2Cache` additionally rejects any default TTL below one second, so it
succeeds exactly when the capacity is positive and the TTL is at least
`time.Second`. -/
theorem constructor_validation (K V : Type) (maxEntries defaultTTL : Int)
    (px : String) :
    ((NewWithoutRWMutex K V maxEntries defaultTTL).isSome ↔
       0 < maxEntries ∧ 0 < defaultTTL) ∧
    ((New K V maxEntries defaultTTL).isSome ↔
       0 < maxEntries ∧ 0 < defaultTTL) ∧
    ((NewL2Cache maxEntries defaultTTL px).isSome ↔
       0 < maxEntries ∧ second ≤ defaultTTL) := by
  refine ⟨newWithoutRWMutex_isSome K V maxEntries defaultTTL,
    newWithoutRWMutex_isSome K V maxEntries defaultTTL, ?_⟩
  unfold NewL2Cache
  by_cases h : defaultTTL < second
  · rw [if_pos h]
    simp only [Option.isSome_none, Bool.false_eq_true, false_iff]
    omega
  · rw [if_neg h]
    rcases hn : New String Bytes maxEntries defaultTTL with _ | c
    · have := (newWithoutRWMutex_isSome String Bytes maxEntries defaultTTL)
      rw [show New String Bytes maxEntries defaultTTL
            = NewWithoutRWMutex String Bytes maxEntries defaultTTL from rfl]
        at hn
      rw [hn] at this
      simp only [Option.isSome_none, Bool.false_eq_true, false_iff] at this ⊢
      unfold second at h ⊢
      omega
    · have := (newWithoutRWMutex_isSome String Bytes maxEntries defaultTTL)
      rw [show New String Bytes maxEntries defaultTTL
            = NewWithoutRWMutex String Bytes maxEntries defaultTTL from rfl]
        at hn
      rw [hn] at this
      simp only [Option.isSome_some, true_iff] at this ⊢
      omega

/-- Claim C2 counterexample: `NewRing` with Size = 2, MaxEntries = 4 builds
each cache with capacity `4/2 + 1 = 3`, not the spec's
`ceil(4/2) = 2`. -/
theorem ring_capacity_counterexample :
    NewRing Nat Nat ⟨2, 4, 1⟩
      = some (List.replicate 2 { ttl := 1, lru := NewLRU 3 }) ∧
    specShardCapacity 4 2 = 2 ∧
    ((3 : Int) ≠ specShardCapacity 4 2) := by decide

/-- Claim C2 (amended): for valid parameters (`defaultTTL > 0`,
`size > 0`, `maxEntries > size`), `NewRing` builds exactly `size` cache
instances, each constructed with capacity `maxEntries/size + 1` — the floor
of the quotient plus one, which exceeds `ceil(maxEntries/size)` exactly
when `size` divides `maxEntries`. -/
theorem ring_builds_shards (K V : Type) (p : RingCacheParams)
    (h1 : 0 < p.defaultTTL) (h2 : 0 < p.size) (h3 : p.size < p.maxEntries) :
    NewRing K V p = some (List.replicate p.size.toNat
      { ttl := p.defaultTTL,
        lru := NewLRU (p.maxEntries / p.size + 1) }) := by
  have hg : ¬(p.defaultTTL ≤ 0 ∨ p.size ≤ 0 ∨ p.maxEntries ≤ p.size) := by
    omega
  have hq : 0 ≤ p.maxEntries / p.size :=
    Int.ediv_nonneg (by omega) (by omega)
  have hnew : ¬(p.maxEntries / p.size + 1 ≤ 0 ∨ p.defaultTTL ≤ 0) := by
    omega
  unfold NewRing
  rw [if_neg hg]
  unfold New NewWithoutRWMutex
  simp only [if_neg hnew]

/-- Claim C2 (amended) witness: with Size = 2, MaxEntries = 5, TTL = 7,
`NewRing` builds 2 caches of capacity `5/2 + 1 = 3`. -/
theorem ring_builds_shards_witness :
    NewRing Nat Nat ⟨2, 5, 7⟩
      = some (List.replicate 2 { ttl := 7, lru := NewLRU 3 }) :=
  ring_builds_shards Nat Nat ⟨2, 5, 7⟩ (by decide) (by decide) (by decide)

/-- Adding to the LRU store makes the key findable at the front (for stores
whose capacity is not negative, which covers every constructed one). -/
theorem lruLookup_lru_add_self (c : LRUCache K V) (k : K) (v : V)
    (hcap : 0 ≤ c.maxEntries) :
    lruLookup ((c.add k v).1).entries k = some v := by
  obtain ⟨m, entries, flag⟩ := c
  simp only at hcap
  cases entries with
  | nil =>
    have hcond : ¬(¬m = 0 ∧ m < 1) := by omega
    simp [LRUCache.add, lruFind, lruLookup, hcond]
  | cons a t =>
    unfold LRUCache.add
    by_cases hp : (lruFind (a :: t) k).isSome
    · simp only [hp, if_true]
      simp [lruLookup, lruFind_cons_self]
    · by_cases hev : m ≠ 0 ∧ (((k, v) :: a :: t).length : Int) > m
      · simp only [hp, Bool.false_eq_true, if_false, if_pos hev,
          List.dropLast_cons₂]
        simp [lruLookup, lruFind_cons_self]
      · simp only [hp, Bool.false_eq_true, if_false, if_neg hev]
        simp [lruLookup, lruFind_cons_self]

/-- Adding to the TTL cache makes the key findable with the freshly
computed expiry instant. -/
theorem lruLookup_cache_add_self (c : Cache K V) (now : Int) (k : K) (v : V)
    (ttlArg : Option Int) (hcap : 0 ≤ c.lru.maxEntries) :
    lruLookup ((c.add now k v ttlArg).1).lru.entries k
      = some ⟨now + (match ttlArg with | some t => t | none => c.ttl), v⟩ :=
  lruLookup_lru_add_self c.lru k _ hcap

/-- The read path `Cache.Get` never changes the configured capacity. -/
theorem cache_get_preserves_maxEntries (c : Cache K V) (now : Int) (k : K) :
    ((c.get now k).2.1).lru.maxEntries = c.lru.maxEntries := by
  rcases h : lruLookup c.lru.entries k with _ | item
  · rw [cache_get_none_eq h]
  · by_cases hexp : item.isExpired now
    · rw [cache_get_expired_eq h hexp]
    · rw [cache_get_live_eq h (by simpa using hexp)]

/-- Claim C3: `Set`/`SetBytes` write the encoded bytes to the slow store
before the near cache: when the slow store's `Set` fails, the call returns
that error and the near cache is untouched (only the `slowSet` action
happened); on success the `slowSet` action precedes the `nearAdd`; the
typed `Set` with a successful marshal coincides with `SetBytes` on the
encoded bytes. -/
theorem l2_set_durable_before_near (W : Type) (slow : SlowStore E)
    (l2 : L2Cache) (now : Int) (key : String) (value : Bytes)
    (ttlArg : Option Int) (hkey : key ≠ "") :
    (∀ e, slow.set (l2.prefixStr ++ key) value (l2.resolvedTTL ttlArg)
        = .error e →
       l2.SetBytes slow now key value ttlArg
         = (some (L2Error.err e), l2,
            [L2Event.slowSet (l2.prefixStr ++ key) value
               (l2.resolvedTTL ttlArg)])) ∧
    (slow.set (l2.prefixStr ++ key) value (l2.resolvedTTL ttlArg) = .ok () →
       l2.SetBytes slow now key value ttlArg
         = (none,
            { l2 with ttlCache := (l2.ttlCache.add now (l2.prefixStr ++ key)
                value (some (l2.resolvedTTL ttlArg))).1 },
            [L2Event.slowSet (l2.prefixStr ++ key) value
               (l2.resolvedTTL ttlArg),
             L2Event.nearAdd (l2.prefixStr ++ key) value
               (l2.resolvedTTL ttlArg)])) ∧
    (∀ (marshal : W → Except E Bytes) (v : W), marshal v = .ok value →
       l2.Set slow marshal now key v ttlArg
         = l2.SetBytes slow now key value ttlArg) := by
  refine ⟨fun e he => ?_, fun hok => ?_, fun marshal v hm => ?_⟩
  · simp [L2Cache.SetBytes, L2Cache.getKey, hkey, L2Cache.setBytes, he]
  · simp [L2Cache.SetBytes, L2Cache.getKey, hkey, L2Cache.setBytes, hok]
  · simp [L2Cache.Set, L2Cache.SetBytes, L2Cache.getKey, hkey, hm]

/-- Claim C3 witness: against the always-failing slow store, `SetBytes`
returns the slow store's error, leaves `sampleL2` untouched, and only the
slow-store write was attempted. -/
theorem l2_set_durable_before_near_witness :
    sampleL2.SetBytes sampleSlowFail 0 "k" [5] none
      = (some (L2Error.err "boom"), sampleL2,
         [L2Event.slowSet (sampleL2.prefixStr ++ "k") [5]
            (sampleL2.resolvedTTL none)]) :=
  (l2_set_durable_before_near Unit sampleSlowFail sampleL2 0 "k" [5] none
      (by decide)).1 "boom" rfl

/-- Claim C10: a present, unexpired near-cache entry whose stored byte
slice has length zero is treated as a miss by `getBytes`: the slow store's
`Get` is still invoked, and a slow-store error is returned as the call's
result — the empty near value is never served on its own. -/
theorem l2_empty_near_hit_falls_through (slow : SlowStore E)
    (l2 : L2Cache) (now : Int) (key : String)
    (hhit : (l2.ttlCache.get now key).1 = (some [], true)) :
    L2Event.slowGet key ∈ (l2.getBytes slow now key).2.2 ∧
    (∀ e, slow.get key = .error e →
       (l2.getBytes slow now key).1 = .error e) := by
  have hmiss : nearBuf (l2.ttlCache.get now key).1 = [] := by
    rw [hhit]; rfl
  unfold L2Cache.getBytes
  rw [hmiss]
  rcases hg : slow.get key with e | b
  · simp
  · constructor
    · by_cases hb : b.length ≠ 0
      · by_cases ht : (slow.ttlOf key).1 ≠ 0 <;> simp [hb, ht]
      · simp [hb]
    · intro e he
      simp at he

/-- Claim C10 witness: `sampleL2Empty` holds an unexpired zero-length entry
for `"k"`; `getBytes` still consults the slow store (and surfaces the
failing slow store's error). -/
theorem l2_empty_near_hit_falls_through_witness :
    L2Event.slowGet "k" ∈ (sampleL2Empty.getBytes sampleSlowOK 0 "k").2.2 ∧
    (sampleL2Empty.getBytes sampleSlowFail 0 "k").1 = .error "not found" :=
  ⟨(l2_empty_near_hit_falls_through sampleSlowOK sampleL2Empty 0 "k"
      (by decide)).1,
   (l2_empty_near_hit_falls_through sampleSlowFail sampleL2Empty 0 "k"
      (by decide)).2 "not found" rfl⟩

/-- Claim C8: when the near cache yields no usable value and the slow
store's `Get` succeeds with nonempty bytes, `getBytes` repopulates the near
cache with those bytes under the slow store's reported TTL exactly when
that TTL is nonzero (the repopulated entry expires at `now` plus that TTL),
and in the typed `Get` the `nearAdd` action precedes the `decode` of the
returned bytes; when the reported TTL is zero the near cache is left as the
initial consult left it. -/
theorem l2_readthrough_repopulation (slow : SlowStore E) (l2 : L2Cache)
    (now : Int) (key : String) (b : Bytes) (hkey : key ≠ "")
    (hcap : 0 ≤ l2.ttlCache.lru.maxEntries)
    (hmiss : nearBuf (l2.ttlCache.get now (l2.prefixStr ++ key)).1 = [])
    (hslow : slow.get (l2.prefixStr ++ key) = .ok b) (hne : b ≠ []) :
    ((slow.ttlOf (l2.prefixStr ++ key)).1 ≠ 0 →
       l2.getBytes slow now (l2.prefixStr ++ key)
         = (.ok b,
            { l2 with ttlCache :=
               (((l2.ttlCache.get now (l2.prefixStr ++ key)).2.1).add now
                  (l2.prefixStr ++ key) b
                  (some (slow.ttlOf (l2.prefixStr ++ key)).1)).1 },
            [L2Event.slowGet (l2.prefixStr ++ key),
             L2Event.slowTTLGet (l2.prefixStr ++ key),
             L2Event.nearAdd (l2.prefixStr ++ key) b
               (slow.ttlOf (l2.prefixStr ++ key)).1]) ∧
       lruLookup
         (((l2.getBytes slow now
             (l2.prefixStr ++ key)).2.1).ttlCache.lru.entries)
         (l2.prefixStr ++ key)
         = some ⟨now + (slow.ttlOf (l2.prefixStr ++ key)).1, b⟩ ∧
       (∀ unmarshal : Bytes → Except E Unit,
          (l2.Get slow unmarshal now key).2.2
            = [L2Event.slowGet (l2.prefixStr ++ key),
               L2Event.slowTTLGet (l2.prefixStr ++ key),
               L2Event.nearAdd (l2.prefixStr ++ key) b
                 (slow.ttlOf (l2.prefixStr ++ key)).1,
               L2Event.decode b])) ∧
    ((slow.ttlOf (l2.prefixStr ++ key)).1 = 0 →
       l2.getBytes slow now (l2.prefixStr ++ key)
         = (.ok b,
            { l2 with ttlCache :=
                (l2.ttlCache.get now (l2.prefixStr ++ key)).2.1 },
            [L2Event.slowGet (l2.prefixStr ++ key),
             L2Event.slowTTLGet (l2.prefixStr ++ key)])) := by
  have hb : b.length ≠ 0 := fun h => hne (List.length_eq_zero.mp h)
  constructor
  · intro ht
    have hgb : l2.getBytes slow now (l2.prefixStr ++ key)
        = (.ok b,
           { l2 with ttlCache :=
              (((l2.ttlCache.get now (l2.prefixStr ++ key)).2.1).add now
                 (l2.prefixStr ++ key) b
                 (some (slow.ttlOf (l2.prefixStr ++ key)).1)).1 },
           [L2Event.slowGet (l2.prefixStr ++ key),
            L2Event.slowTTLGet (l2.prefixStr ++ key),
            L2Event.nearAdd (l2.prefixStr ++ key) b
              (slow.ttlOf (l2.prefixStr ++ key)).1]) := by
      unfold L2Cache.getBytes
      rw [hmiss, hslow]
      simp [hb, ht]
    refine ⟨hgb, ?_, fun unmarshal => ?_⟩
    · rw [hgb]
      have hcap' : 0 ≤
          ((l2.ttlCache.get now (l2.prefixStr ++ key)).2.1).lru.maxEntries := by
        rw [cache_get_preserves_maxEntries]
        exact hcap
      exact lruLookup_cache_add_self
        ((l2.ttlCache.get now (l2.prefixStr ++ key)).2.1) now
        (l2.prefixStr ++ key) b
        (some (slow.ttlOf (l2.prefixStr ++ key)).1) hcap'
    · unfold L2Cache.Get L2Cache.getKey
      rw [if_neg hkey]
      simp only [hgb]
      cases unmarshal b <;> rfl
  · intro ht
    unfold L2Cache.getBytes
    rw [hmiss, hslow]
    simp [hb, ht]

/-- Claim C8 witness: against `sampleSlowOK` (bytes `[1, 2]`, reported TTL
7ns) and the empty near cache of `sampleL2`, the fetched bytes are written
back into the near cache (expiring at instant 7) and the typed `Get` trace
shows the repopulation before the decode; against `sampleSlowZero`
(reported TTL 0) the near cache is not repopulated. -/
theorem l2_readthrough_repopulation_witness :
    lruLookup
      (((sampleL2.getBytes sampleSlowOK 0
          (sampleL2.prefixStr ++ "k")).2.1).ttlCache.lru.entries)
      (sampleL2.prefixStr ++ "k") = some ⟨7, [1, 2]⟩ ∧
    (sampleL2.Get sampleSlowOK (fun _ => .ok ()) 0 "k").2.2
      = [L2Event.slowGet (sampleL2.prefixStr ++ "k"),
         L2Event.slowTTLGet (sampleL2.prefixStr ++ "k"),
         L2Event.nearAdd (sampleL2.prefixStr ++ "k") [1, 2] 7,
         L2Event.decode [1, 2]] ∧
    sampleL2.getBytes sampleSlowZero 0 (sampleL2.prefixStr ++ "k")
      = (.ok [1, 2],
         { sampleL2 with ttlCache :=
             (sampleL2.ttlCache.get 0 (sampleL2.prefixStr ++ "k")).2.1 },
         [L2Event.slowGet (sampleL2.prefixStr ++ "k"),
          L2Event.slowTTLGet (sampleL2.prefixStr ++ "k")]) :=
  ⟨((l2_readthrough_repopulation sampleSlowOK sampleL2 0 "k" [1, 2]
      (by decide) (by decide) (by decide) rfl (by decide)).1
      (by decide)).2.1,
   ((l2_readthrough_repopulation sampleSlowOK sampleL2 0 "k" [1, 2]
      (by decide) (by decide) (by decide) rfl (by decide)).1
      (by decide)).2.2 (fun _ => .ok ()),
   (l2_readthrough_repopulation sampleSlowZero sampleL2 0 "k" [1, 2]
      (by decide) (by decide) (by decide) rfl (by decide)).2 rfl⟩

end LruTtl
